import Mathlib

/-!
# Verification of the Stellaris name-generator source (`src/main.rs`)

A shallow embedding of the program in Lean 4. Strings are modelled as
`String`/`List Char` (Rust `String` is a sequence of Unicode scalar values;
the program only manipulates it at character granularity on the paths
modelled here). Each definition mirrors one function or code block of
`src/main.rs`; the external JSON deserializer (`serde_json::from_str` for the
`GenerativeAIOutput` struct) and the streamed chat transport are modelled as
explicit functions/data.
-/

namespace StellarisNameGen

/-! ## Character helpers (ASCII, mirroring Rust `char`/`u8` methods) -/

/-- Rust `char::is_ascii_alphanumeric`: `'0'..='9' | 'A'..='Z' | 'a'..='z'`. -/
def isAsciiAlphanumeric (c : Char) : Bool :=
  (48 ≤ c.toNat && c.toNat ≤ 57) || (65 ≤ c.toNat && c.toNat ≤ 90) ||
    (97 ≤ c.toNat && c.toNat ≤ 122)

/-- Rust `char::to_ascii_uppercase`: shift `'a'..='z'` down by 32, leave the rest. -/
def toAsciiUppercase (c : Char) : Char :=
  if 97 ≤ c.toNat && c.toNat ≤ 122 then Char.ofNat (c.toNat - 32) else c

/-- Rust `u8::is_ascii_whitespace`: space, tab, newline, form feed, carriage return. -/
def isAsciiWsChar (c : Char) : Bool :=
  c.toNat = 32 || c.toNat = 9 || c.toNat = 10 || c.toNat = 12 || c.toNat = 13

/-! Structurally recursive string primitives (Rust `str` methods; whitespace
is `Char.isWhitespace`, which covers the whitespace the documents use). -/

/-- Rust `str::trim` on a character list. -/
def trimChars (s : List Char) : List Char :=
  (((s.dropWhile Char.isWhitespace).reverse).dropWhile Char.isWhitespace).reverse

/-- Rust `str::trim`. -/
def trimStr (s : String) : String :=
  String.mk (trimChars s.data)

/-- Rust `str::starts_with(pat)`. -/
def startsWithStr (s pat : String) : Bool :=
  pat.data.isPrefixOf s.data

/-- Rust `str::ends_with(pat)`. -/
def endsWithStr (s pat : String) : Bool :=
  pat.data.isSuffixOf s.data

/-- Rust `str::contains(char)`. -/
def containsChar (s : String) (c : Char) : Bool :=
  s.data.contains c

/-- Drop the first `n` characters (Rust byte-slicing `&s[n..]` on ASCII
boundaries). -/
def dropStr (s : String) (n : Nat) : String :=
  String.mk (s.data.drop n)

/-! ## `sanitize_key` (src/main.rs lines 38–46)

The match arms `' ' | '-' | '\'' | '!' | '"' => '_'` are written through the
code points 32, 45, 39, 33, 34; `'_'` is code point 95. -/

/-- One arm of the `.map(|c| match c ...)` closure in `sanitize_key`. -/
def sanChar (c : Char) : Char :=
  if c.toNat = 32 || c.toNat = 45 || c.toNat = 39 || c.toNat = 33 || c.toNat = 34 then
    Char.ofNat 95
  else if isAsciiAlphanumeric c then toAsciiUppercase c
  else Char.ofNat 95

/-- Source `fn sanitize_key(name: &str) -> String`: character-wise map of `sanChar`. -/
def sanitize_key (name : String) : String :=
  String.mk (name.data.map sanChar)

/-- The output alphabet claimed for sanitized keys: `A`–`Z`, `0`–`9`, `_`. -/
def isKeyChar (c : Char) : Bool :=
  (65 ≤ c.toNat && c.toNat ≤ 90) || (48 ≤ c.toNat && c.toNat ≤ 57) || c.toNat = 95

/-! ## Repair pipeline primitives (src/main.rs lines 117–172)

These operate on `List Char`; Rust byte indices coincide with character
indices on the paths exercised (the index arithmetic in the source lands on
character boundaries because it starts right after a one-byte `'"'` and walks
one-byte ASCII whitespace). -/

/-- Index of the last occurrence of `c` in `s` (Rust `str::rfind(char)`). -/
def rfindIdx (s : List Char) (c : Char) : Option Nat :=
  s.reverse.findIdx? (fun d => d = c) |>.map (fun i => s.length - 1 - i)

/-- First index `≥ i` whose character is not ASCII whitespace (the
`while ... is_ascii_whitespace` loops at lines 122–124 and 154–157). -/
def skipWsAux : List Char → Nat → Nat
  | [], i => i
  | c :: rest, i => if isAsciiWsChar c then skipWsAux rest (i + 1) else i

def skipWsFrom (s : List Char) (i : Nat) : Nat :=
  skipWsAux (s.drop i) i

/-- Rust `String::remove(idx)` (drop the character at index `i`). -/
def removeAt (s : List Char) (i : Nat) : List Char :=
  s.take i ++ s.drop (i + 1)

/-- Lines 119–129 (and identically 152–161): if a comma is the first
non-whitespace character after the last `'"'`, remove it. -/
def removeTrailingComma (s : List Char) : List Char :=
  match rfindIdx s (Char.ofNat 34) with
  | none => s
  | some q =>
    let i := skipWsFrom s (q + 1)
    if h : i < s.length then
      if s.get ⟨i, h⟩ = Char.ofNat 44 then removeAt s i else s
    else s

/-- Lines 133–136: keep content starting at the first `'{'` (code point 123). -/
def dropPreamble (s : List Char) : List Char :=
  match s.findIdx? (fun d => d = Char.ofNat 123) with
  | some p => s.drop p
  | none => s

/-- Lines 138–140: if the `'"'` count is odd, append one `'"'`. -/
def balanceQuotes (s : List Char) : List Char :=
  if s.count (Char.ofNat 34) % 2 ≠ 0 then s ++ [Char.ofNat 34] else s

/-- Rust `str::trim_end` restricted to the whitespace the inputs contain. -/
def rtrimWs (s : List Char) : List Char :=
  (s.reverse.dropWhile (fun c => c.isWhitespace)).reverse

/-- Index of the last occurrence of the three-character pattern `,""`
(Rust `String::rfind(",\"\"")`). -/
def rfindCommaQuoteQuote (s : List Char) : Option Nat :=
  (List.range s.length).reverse.find?
    (fun p => decide ((s.drop p).take 3 = [Char.ofNat 44, Char.ofNat 34, Char.ofNat 34]))

/-- Lines 141–151: if the right-trimmed buffer ends in `""`, remove the last
`,""` occurrence (three characters) when one exists. -/
def dropEmptyTrailing (s : List Char) : List Char :=
  let trimmed := rtrimWs s
  if 2 ≤ trimmed.length ∧ trimmed.drop (trimmed.length - 2) = [Char.ofNat 34, Char.ofNat 34] then
    match rfindCommaQuoteQuote s with
    | some pos => s.take pos ++ s.drop (pos + 3)
    | none => s
  else s

/-- Lines 162–172: append `']'` for each unmatched `'['`, then `'}'` for each
unmatched `'{'` (code points 91/93 and 123/125). -/
def balanceBrackets (s : List Char) : List Char :=
  let ob := s.count (Char.ofNat 91)
  let cb := s.count (Char.ofNat 93)
  let s1 := if cb < ob then s ++ List.replicate (ob - cb) (Char.ofNat 93) else s
  let obc := s1.count (Char.ofNat 123)
  let cbc := s1.count (Char.ofNat 125)
  if cbc < obc then s1 ++ List.replicate (obc - cbc) (Char.ofNat 125) else s1

/-- The `fixed` computation of lines 131–172, starting from the already
comma-stripped `combined` buffer. -/
def repairRest (s : List Char) : List Char :=
  balanceBrackets (removeTrailingComma (dropEmptyTrailing (balanceQuotes (dropPreamble s))))

/-! ## JSON parsing (model of `serde_json::from_str::<GenerativeAIOutput>`)

`GenerativeAIOutput` (src/main.rs lines 20–23) is `struct { names: Vec<String> }`
with default serde behaviour: unknown fields ignored, missing or duplicate
`names` field rejected, trailing characters after the document rejected.
The grammar below is standard JSON (RFC 8259), recursive descent with a fuel
bound larger than the input length (sufficient since every recursion step
consumes input). -/

/-- JSON values. Numeric payloads are irrelevant to the program (the target
struct holds only strings), so `jnum` carries none. -/
inductive Json where
  | jnull
  | jbool (b : Bool)
  | jnum
  | jstr (s : List Char)
  | jarr (xs : List Json)
  | jobj (fs : List (List Char × Json))

/-- JSON insignificant whitespace: space, tab, line feed, carriage return. -/
def skipWsJ : List Char → List Char
  | [] => []
  | c :: rest =>
    if c.toNat = 32 || c.toNat = 9 || c.toNat = 10 || c.toNat = 13 then skipWsJ rest
    else c :: rest

def hexDigit (c : Char) : Option Nat :=
  if 48 ≤ c.toNat ∧ c.toNat ≤ 57 then some (c.toNat - 48)
  else if 97 ≤ c.toNat ∧ c.toNat ≤ 102 then some (c.toNat - 87)
  else if 65 ≤ c.toNat ∧ c.toNat ≤ 70 then some (c.toNat - 55)
  else none

def hex4 : List Char → Option (Nat × List Char)
  | a :: b :: c :: d :: rest => do
    let x ← hexDigit a
    let y ← hexDigit b
    let z ← hexDigit c
    let w ← hexDigit d
    pure (((x * 16 + y) * 16 + z) * 16 + w, rest)
  | _ => none

/-- Unicode `\uXXXX` escapes, including surrogate pairs; lone surrogates are
rejected, as `serde_json` does. -/
def parseUnicodeEscape (s : List Char) : Option (Char × List Char) :=
  match hex4 s with
  | none => none
  | some (n, rest) =>
    if 55296 ≤ n ∧ n ≤ 56319 then
      match rest with
      | u :: b :: rest2 =>
        if u.toNat = 92 ∧ b = 'u' then
          match hex4 rest2 with
          | some (m, rest3) =>
            if 56320 ≤ m ∧ m ≤ 57343 then
              some (Char.ofNat (65536 + (n - 55296) * 1024 + (m - 56320)), rest3)
            else none
          | none => none
        else none
      | _ => none
    else if 56320 ≤ n ∧ n ≤ 57343 then none
    else some (Char.ofNat n, rest)

/-- Body of a JSON string after the opening quote: returns the decoded
characters and the remainder after the closing quote. -/
def parseStringBody : Nat → List Char → Option (List Char × List Char)
  | 0, _ => none
  | _, [] => none
  | fuel + 1, c :: rest =>
    if c.toNat = 34 then some ([], rest)
    else if c.toNat = 92 then
      match rest with
      | [] => none
      | e :: rest2 =>
        let esc : Option (Char × List Char) :=
          if e.toNat = 34 then some (Char.ofNat 34, rest2)
          else if e.toNat = 92 then some (Char.ofNat 92, rest2)
          else if e.toNat = 47 then some (Char.ofNat 47, rest2)
          else if e = 'b' then some (Char.ofNat 8, rest2)
          else if e = 'f' then some (Char.ofNat 12, rest2)
          else if e = 'n' then some (Char.ofNat 10, rest2)
          else if e = 'r' then some (Char.ofNat 13, rest2)
          else if e = 't' then some (Char.ofNat 9, rest2)
          else if e = 'u' then parseUnicodeEscape rest2
          else none
        match esc with
        | some (ch, rest3) =>
          match parseStringBody fuel rest3 with
          | some (cs, r) => some (ch :: cs, r)
          | none => none
        | none => none
    else if c.toNat < 32 then none
    else
      match parseStringBody fuel rest with
      | some (cs, r) => some (c :: cs, r)
      | none => none

def isDigitChar (c : Char) : Bool := 48 ≤ c.toNat && c.toNat ≤ 57

/-- Optional fraction and exponent parts of a JSON number; returns the
remainder. -/
def parseFracExp (t : List Char) : Option (List Char) :=
  let t1opt : Option (List Char) := match t with
    | c :: rest =>
      if c.toNat = 46 then
        match rest with
        | d :: _ => if isDigitChar d then some (rest.dropWhile isDigitChar) else none
        | [] => none
      else some t
    | [] => some t
  match t1opt with
  | none => none
  | some t1 =>
    match t1 with
    | c :: rest =>
      if c = 'e' ∨ c = 'E' then
        let rest2 := match rest with
          | d :: r2 => if d.toNat = 43 ∨ d.toNat = 45 then r2 else rest
          | [] => rest
        match rest2 with
        | d :: _ => if isDigitChar d then some (rest2.dropWhile isDigitChar) else none
        | [] => none
      else some t1
    | [] => some t1

/-- JSON number grammar, starting at the first character; returns the
remainder. The numeric value is discarded. -/
def parseNumberJ (s : List Char) : Option (List Char) :=
  let afterSign := match s with
    | c :: rest => if c.toNat = 45 then rest else s
    | [] => s
  match afterSign with
  | [] => none
  | c :: rest =>
    if c.toNat = 48 then
      parseFracExp rest
    else if isDigitChar c then
      parseFracExp (rest.dropWhile isDigitChar)
    else none

mutual

/-- One JSON value, by recursive descent. -/
def parseValue : Nat → List Char → Option (Json × List Char)
  | 0, _ => none
  | fuel + 1, s =>
    match skipWsJ s with
    | [] => none
    | c :: rest =>
      if c.toNat = 123 then
        match skipWsJ rest with
        | d :: rest2 =>
          if d.toNat = 125 then some (.jobj [], rest2)
          else
            match parseMembers fuel (d :: rest2) with
            | some (fs, r) => some (.jobj fs, r)
            | none => none
        | [] => none
      else if c.toNat = 91 then
        match skipWsJ rest with
        | d :: rest2 =>
          if d.toNat = 93 then some (.jarr [], rest2)
          else
            match parseElems fuel (d :: rest2) with
            | some (xs, r) => some (.jarr xs, r)
            | none => none
        | [] => none
      else if c.toNat = 34 then
        match parseStringBody (rest.length + 1) rest with
        | some (cs, r) => some (.jstr cs, r)
        | none => none
      else if c = 't' then
        match rest with
        | r1 :: u1 :: e1 :: r => if r1 = 'r' ∧ u1 = 'u' ∧ e1 = 'e' then some (.jbool true, r) else none
        | _ => none
      else if c = 'f' then
        match rest with
        | a1 :: l1 :: s1 :: e1 :: r =>
          if a1 = 'a' ∧ l1 = 'l' ∧ s1 = 's' ∧ e1 = 'e' then some (.jbool false, r) else none
        | _ => none
      else if c = 'n' then
        match rest with
        | u1 :: l1 :: l2 :: r => if u1 = 'u' ∧ l1 = 'l' ∧ l2 = 'l' then some (.jnull, r) else none
        | _ => none
      else if c.toNat = 45 ∨ isDigitChar c then
        match parseNumberJ (c :: rest) with
        | some r => some (.jnum, r)
        | none => none
      else none

/-- Members of a non-empty JSON object, up to and including the closing brace. -/
def parseMembers : Nat → List Char → Option (List (List Char × Json) × List Char)
  | 0, _ => none
  | fuel + 1, s =>
    match skipWsJ s with
    | c :: rest =>
      if c.toNat = 34 then
        match parseStringBody (rest.length + 1) rest with
        | some (key, r1) =>
          match skipWsJ r1 with
          | d :: r2 =>
            if d.toNat = 58 then
              match parseValue fuel r2 with
              | some (v, r3) =>
                match skipWsJ r3 with
                | e :: r4 =>
                  if e.toNat = 44 then
                    match parseMembers fuel r4 with
                    | some (fs, r) => some ((key, v) :: fs, r)
                    | none => none
                  else if e.toNat = 125 then some ([(key, v)], r4)
                  else none
                | [] => none
              | none => none
            else none
          | [] => none
        | none => none
      else none
    | [] => none

/-- Elements of a non-empty JSON array, up to and including the closing bracket. -/
def parseElems : Nat → List Char → Option (List Json × List Char)
  | 0, _ => none
  | fuel + 1, s =>
    match parseValue fuel s with
    | some (v, r1) =>
      match skipWsJ r1 with
      | e :: r2 =>
        if e.toNat = 44 then
          match parseElems fuel r2 with
          | some (xs, r) => some (v :: xs, r)
          | none => none
        else if e.toNat = 93 then some ([v], r2)
        else none
      | [] => none
    | none => none

end

/-- A complete JSON document: one value with only whitespace after it. -/
def parseJson (s : List Char) : Option Json :=
  match parseValue (s.length + 1) s with
  | some (v, rest) => if skipWsJ rest = [] then some v else none
  | none => none

/-- Deserialization of a `Json` value into `GenerativeAIOutput` under serde's
default derive: the value must be an object carrying exactly one `names`
field whose value is an array of strings; other fields are ignored. -/
def genOutputOfJson : Json → Option (List String)
  | .jobj fs =>
    match fs.filter (fun f => f.1 = "names".data) with
    | [p] =>
      match p.2 with
      | .jarr xs =>
        xs.mapM (fun x => match x with | .jstr cs => some (String.mk cs) | _ => none)
      | _ => none
    | _ => none
  | _ => none

/-- Model of `serde_json::from_str::<GenerativeAIOutput>` on a buffer, keeping only the
`names` list (src/main.rs lines 208–210). -/
def parseNames (s : List Char) : Option (List String) :=
  (parseJson s).bind genOutputOfJson

/-! ## Streaming collector and `generate_and_cache` (src/main.rs lines 49–185) -/

/-- Events of the chat stream (`genai::chat::ChatStreamEvent`). -/
inductive StreamEvent where
  | start
  | chunk (s : String)
  | reasoning (s : String)
  | endEv
  | err

/-- The `while let Some(chunk) = stream.next()` loop (lines 95–114): content
chunks accumulate into `combined`; reasoning chunks are printed only; an
`End` event or a stream error breaks the loop; `start` is skipped. -/
def collect : List StreamEvent → List Char
  | [] => []
  | .start :: rest => collect rest
  | .reasoning _ :: rest => collect rest
  | .chunk s :: rest => s.data ++ collect rest
  | .endEv :: _ => []
  | .err :: _ => []

/-- The observable results of one `generate_and_cache` call:
`cached` is what `fs::write(&cache_path, &combined)` persists (line 178),
`returned` is the function's `Ok(combined)` value (line 184), and
`repaired` is the `fixed` buffer of lines 131–172, which the function
computes but never uses afterwards. -/
structure GenCacheResult where
  cached : List Char
  returned : List Char
  repaired : List Char

/-- Model of `generate_and_cache` after the streaming loop: lines 119–129 strip one
trailing comma from `combined` in place; lines 131–172 build `fixed` from a
clone of that buffer; line 178 caches `combined`; line 184 returns
`combined`. -/
def generate_and_cache_model (events : List StreamEvent) : GenCacheResult :=
  let combined := removeTrailingComma (collect events)
  { cached := combined, returned := combined, repaired := repairRest combined }

/-! ## Entry normalization (src/main.rs lines 219–233) -/

/-- Rust `str::trim_end_matches('_')`. -/
def trimEndUnderscores (s : String) : String :=
  String.mk ((s.data.reverse.dropWhile (fun c => c.toNat = 95)).reverse)

/-- The `for nm in json_out.names` loop: trim each name, skip empties,
sanitize, and build the key from the underscore-stripped `prefix_clean`
(empty `prefix_clean` means no prefix part). -/
def normalizeEntries (pfx : String) (names : List String) : List (String × String) :=
  let prefix_clean := trimEndUnderscores pfx
  names.foldl
    (fun entries nm =>
      let name := trimStr nm
      if name = "" then entries
      else
        let nm_san := sanitize_key name
        let key := if prefix_clean = "" then nm_san else prefix_clean ++ "_" ++ nm_san
        entries ++ [(key, name)])
    []

/-! ## `generate_localized_entries` (src/main.rs lines 188–235)

A call is parameterized by the cache document's content at entry (`none`
when `fs::read_to_string` fails) and by the outcomes of the successive
service invocations the call would perform: element `none` models
`exec_chat_stream` returning `Err` (the `?` on line 90 propagates it),
element `some events` a stream delivering those events. The model returns
the function's outcome together with the number of service invocations
performed; `pending` means the modelled invocation list was exhausted with
the retry loop still running. -/

inductive RetryOut where
  | ok (names : List String)
  | transportErr
  | pending
deriving DecidableEq

inductive GenOutcome where
  | ok (entries : List (String × String))
  | transportErr
  | pending
deriving DecidableEq

/-- The retry structure shared by the cache-miss path (lines 203, 206: first
invocation produces `raw`) and the `while json_out.is_none()` loop
(lines 212–217): invoke, parse the returned buffer, stop on success,
propagate a transport error, otherwise try again. -/
def retryNames : List (Option (List StreamEvent)) → RetryOut × Nat
  | [] => (.pending, 0)
  | none :: _ => (.transportErr, 1)
  | some ev :: rest =>
    match parseNames (generate_and_cache_model ev).returned with
    | some ns => (.ok ns, 1)
    | none =>
      let r := retryNames rest
      (r.1, r.2 + 1)

/-- Lift a retry outcome through the normalization epilogue (lines 218–234). -/
def finishGen (pfx : String) : RetryOut × Nat → GenOutcome × Nat
  | (.ok ns, n) => (.ok (normalizeEntries pfx ns), n)
  | (.transportErr, n) => (.transportErr, n)
  | (.pending, n) => (.pending, n)

/-- Model of `generate_localized_entries`: lines 195–207 pick `raw` from a non-empty
cache document when one exists, otherwise from a first service invocation;
lines 208–217 parse and retry; lines 218–234 normalize. -/
def generate_localized_entries_model (pfx : String) (cache : Option (List Char))
    (svc : List (Option (List StreamEvent))) : GenOutcome × Nat :=
  match cache with
  | some s =>
    if trimChars s ≠ [] then
      match parseNames s with
      | some ns => (.ok (normalizeEntries pfx ns), 0)
      | none => finishGen pfx (retryNames svc)
    else finishGen pfx (retryNames svc)
  | none => finishGen pfx (retryNames svc)

/-- The buffers a `generate_localized_entries` call can ever hand to the
parser: the non-empty cache document, and the returned buffer of each
modelled successful service invocation. -/
def parseCandidates (cache : Option (List Char))
    (svc : List (Option (List StreamEvent))) : List (List Char) :=
  (match cache with
   | some s => if trimChars s ≠ [] then [s] else []
   | none => []) ++
  svc.filterMap (fun o => o.map (fun ev => (generate_and_cache_model ev).returned))

/-! ## Structure parser and context stack (src/main.rs lines 250–339)

The per-line state machine of `main`'s `for raw_line in structure.lines()`
loop. Generation is abstracted by an oracle `gen : path → theme → prefix →
entries` standing for the successful result of
`generate_localized_entries(&client, &cache_file, &lore, &theme, &prefix)`;
the cache path is `path.join("_")`, a function of the path argument, and the
lore is fixed for the run. Invocations of the oracle are logged so that
"the generator is invoked" is an observable of the model. -/

/-- Rust `str::split_once(c)`. -/
def splitOnceChar (s : String) (c : Char) : Option (String × String) :=
  match s.data.findIdx? (fun d => d = c) with
  | some i => some (String.mk (s.data.take i), String.mk (s.data.drop (i + 1)))
  | none => none

/-- Rust `str::strip_prefix(pat)` (here only used with the pattern
`"prefix:"`). -/
def stripPrefixStr (s pat : String) : Option String :=
  if startsWithStr s pat then some (dropStr s pat.length) else none

/-- Rust `" ".repeat(n)` (the 4-column indents at lines 302 and 320). -/
def spaces (n : Nat) : String :=
  String.mk (List.replicate n ' ')

/-- Struct `ContextEntry` (src/main.rs lines 26–35). The `prefix` field is named
`pfx` here. -/
structure ContextEntry where
  key : String
  indent : Nat
  theme : Option String
  kv_inserts : List String
  pfx : Option String
  has_data : Bool
  child_count : Nat
  path : List String
deriving DecidableEq

/-- Step `localisations.entry(key.clone()).or_insert(val)` (line 321): association
list lookup giving the `HashMap` observables. -/
def lookupLoc : List (String × String) → String → Option String
  | [], _ => none
  | (k, v) :: rest, key => if k = key then some v else lookupLoc rest key

/-- Insert-once: a no-op when the key is already present. -/
def insertOnce (m : List (String × String)) (k v : String) : List (String × String) :=
  if (lookupLoc m k).isSome then m else m ++ [(k, v)]

/-- The `for (key, val) in entries` body at lines 319–322 applied to a whole
entry list. -/
def insertEntries (m : List (String × String)) (entries : List (String × String)) :
    List (String × String) :=
  entries.foldl (fun acc (e : String × String) => insertOnce acc e.1 e.2) m

/-- The mutable state of `main`'s loop (lines 250–255) plus the invocation
log. The stack's top is the head of `stack` (Rust pushes/pops at the `Vec`'s
end and reads `last()`). `pending_prefix` is named `pending_pfx`. -/
structure ParseState where
  stack : List ContextEntry
  pending_theme : Option String
  pending_kvs : List String
  pending_pfx : Option String
  output : List String
  localisations : List (String × String)
  gens : List (List String × String × String)
deriving DecidableEq

def initState : ParseState :=
  { stack := [], pending_theme := none, pending_kvs := [], pending_pfx := none,
    output := [], localisations := [], gens := [] }

/-- One iteration of the loop body (lines 257–339) under a generation oracle. -/
def processLine (gen : List String → String → String → List (String × String))
    (st : ParseState) (raw_line : String) : ParseState :=
  let indent := (raw_line.data.takeWhile (fun c => c.isWhitespace)).length
  let trimmed := trimStr raw_line
  if startsWithStr trimmed "#" then
    let comment := trimStr (dropStr trimmed 1)
    match splitOnceChar comment (Char.ofNat 61) with
    | some (k, v) => { st with pending_kvs := st.pending_kvs ++ [trimStr k ++ " = " ++ trimStr v] }
    | none =>
      match stripPrefixStr comment "prefix:" with
      | some pref => { st with pending_pfx := some (trimStr pref) }
      | none => { st with pending_theme := some comment }
  else if endsWithStr trimmed "\x7b" then
    let key := match splitOnceChar trimmed (Char.ofNat 61) with
      | some (a, _) => trimStr a
      | none => trimmed
    let path := (match st.stack.head? with
      | some parent => parent.path
      | none => []) ++ [key]
    let cur_pfx := match st.pending_pfx with
      | some p => some p
      | none =>
        match st.stack.head? with
        | some parent => parent.pfx
        | none => none
    let ctx : ContextEntry :=
      { key := key, indent := indent, theme := st.pending_theme,
        kv_inserts := st.pending_kvs, pfx := cur_pfx, has_data := false,
        child_count := 0, path := path }
    { st with
      stack := ctx :: st.stack,
      pending_theme := none,
      pending_kvs := [],
      pending_pfx := none,
      output := st.output ++ [raw_line] ++ ctx.kv_inserts.map (fun kv => spaces (indent + 4) ++ kv) }
  else if trimmed = "\x7d" then
    let st1 :=
      match st.stack with
      | [] => st
      | ctx :: rest =>
        let st2 :=
          if ctx.child_count = 0 ∧ ctx.has_data = false ∧ ctx.theme.isSome then
            let theme := ctx.theme.getD ""
            let pfxStr := ctx.pfx.getD ""
            let entries := gen ctx.path theme pfxStr
            { st with
              output := st.output ++
                entries.map (fun (e : String × String) => spaces (ctx.indent + 4) ++ e.1 ++ ","),
              localisations := insertEntries st.localisations entries,
              gens := st.gens ++ [(ctx.path, theme, pfxStr)] }
          else st
        { st2 with stack := rest }
    let st3 := { st1 with output := st1.output ++ [raw_line] }
    match st3.stack with
    | parent :: rs =>
      { st3 with stack :=
          { parent with child_count := parent.child_count + 1, has_data := true } :: rs }
    | [] => st3
  else
    let st1 := { st with output := st.output ++ [raw_line] }
    match st1.stack with
    | ctx :: rest =>
      if containsChar trimmed (Char.ofNat 61) || containsChar trimmed (Char.ofNat 44) then
        { st1 with stack := { ctx with has_data := true } :: rest }
      else st1
    | [] => st1

/-- The whole pass over the structure document's lines. -/
def mainLoop (gen : List String → String → String → List (String × String))
    (lines : List String) : ParseState :=
  lines.foldl (processLine gen) initState

/-! ## Supporting lemmas -/

theorem char_toNat_ofNat_lt (n : Nat) (h : n < 55296) : (Char.ofNat n).toNat = n := by
  have hv : n.isValidChar := Or.inl h
  simp [Char.ofNat, hv, Char.ofNatAux, Char.toNat, UInt32.toNat]

theorem char_eq_of_toNat_eq {a b : Char} (h : a.toNat = b.toNat) : a = b :=
  Char.ext (UInt32.ext h)

theorem sanChar_toNat (c : Char) :
    (sanChar c).toNat = 95 ∨
      (48 ≤ (sanChar c).toNat ∧ (sanChar c).toNat ≤ 57) ∨
      (65 ≤ (sanChar c).toNat ∧ (sanChar c).toNat ≤ 90) := by
  have h95 : (Char.ofNat 95).toNat = 95 := by decide
  unfold sanChar
  split
  · exact Or.inl h95
  · split
    · rename_i halnum
      simp only [isAsciiAlphanumeric, Bool.or_eq_true, Bool.and_eq_true,
        decide_eq_true_eq] at halnum
      unfold toAsciiUppercase
      split
      · rename_i hlow
        simp only [Bool.and_eq_true, decide_eq_true_eq] at hlow
        have : (Char.ofNat (c.toNat - 32)).toNat = c.toNat - 32 :=
          char_toNat_ofNat_lt _ (by omega)
        rw [this]
        right; right; omega
      · rename_i hlow
        simp only [Bool.and_eq_true, decide_eq_true_eq, not_and] at hlow
        rcases halnum with (h | h) | h
        · right; left; omega
        · right; right; omega
        · exact absurd h.2 (hlow h.1)
    · exact Or.inl h95

theorem isKeyChar_of_toNat (c : Char)
    (h : c.toNat = 95 ∨ (48 ≤ c.toNat ∧ c.toNat ≤ 57) ∨ (65 ≤ c.toNat ∧ c.toNat ≤ 90)) :
    isKeyChar c = true := by
  unfold isKeyChar
  simp only [Bool.or_eq_true, Bool.and_eq_true, decide_eq_true_eq]
  omega

theorem sanChar_fix (c : Char)
    (h : c.toNat = 95 ∨ (48 ≤ c.toNat ∧ c.toNat ≤ 57) ∨ (65 ≤ c.toNat ∧ c.toNat ≤ 90)) :
    sanChar c = c := by
  rcases h with h | h | h
  · have hc : c = Char.ofNat 95 := char_eq_of_toNat_eq (by rw [h]; decide)
    subst hc; decide
  · unfold sanChar
    rw [if_neg, if_pos, toAsciiUppercase, if_neg]
    · simp only [Bool.and_eq_true, decide_eq_true_eq, not_and]
      omega
    · simp only [isAsciiAlphanumeric, Bool.or_eq_true, Bool.and_eq_true, decide_eq_true_eq]
      omega
    · simp only [Bool.or_eq_true, decide_eq_true_eq]
      omega
  · unfold sanChar
    rw [if_neg, if_pos, toAsciiUppercase, if_neg]
    · simp only [Bool.and_eq_true, decide_eq_true_eq, not_and]
      omega
    · simp only [isAsciiAlphanumeric, Bool.or_eq_true, Bool.and_eq_true, decide_eq_true_eq]
      omega
    · simp only [Bool.or_eq_true, decide_eq_true_eq]
      omega

theorem sanChar_idem (c : Char) : sanChar (sanChar c) = sanChar c :=
  sanChar_fix _ (sanChar_toNat c)

theorem sanChar_isKeyChar (c : Char) : isKeyChar (sanChar c) = true :=
  isKeyChar_of_toNat _ (sanChar_toNat c)

theorem data_mk (l : List Char) : (String.mk l).data = l := rfl

/-! ## Claim theorems -/

/-- C7: key sanitization is idempotent and total: for every input string,
`sanitize_key (sanitize_key s) = sanitize_key s`, and every character of the
output lies in the alphabet A–Z, 0–9, underscore. -/
theorem sanitize_key_idempotent_total (s : String) :
    sanitize_key (sanitize_key s) = sanitize_key s ∧
      ((sanitize_key s).data.all isKeyChar) = true := by
  constructor
  · unfold sanitize_key
    rw [data_mk, List.map_map]
    congr 1
    exact List.map_congr_left (fun a _ => sanChar_idem a)
  · unfold sanitize_key
    rw [data_mk, List.all_map]
    exact List.all_eq_true.mpr (fun a _ => sanChar_isKeyChar a)

/-- C9: the bracket-balancing repair step appends to the end of the buffer
exactly the deficit (openings minus closings) of `]` and then of `}`, and
appends nothing for a kind whose closers are not in deficit (the truncated
subtraction is zero exactly then). -/
theorem balanceBrackets_appends_deficit (s : List Char) :
    balanceBrackets s =
      s ++ List.replicate (s.count (Char.ofNat 91) - s.count (Char.ofNat 93)) (Char.ofNat 93)
        ++ List.replicate (s.count (Char.ofNat 123) - s.count (Char.ofNat 125)) (Char.ofNat 125) := by
  simp only [balanceBrackets]
  have h123 : ∀ n, (s ++ List.replicate n (Char.ofNat 93)).count (Char.ofNat 123)
      = s.count (Char.ofNat 123) := by
    intro n
    rw [List.count_append, List.count_replicate]
    simp
  have h125 : ∀ n, (s ++ List.replicate n (Char.ofNat 93)).count (Char.ofNat 125)
      = s.count (Char.ofNat 125) := by
    intro n
    rw [List.count_append, List.count_replicate]
    simp
  by_cases h1 : s.count (Char.ofNat 93) < s.count (Char.ofNat 91)
  · rw [if_pos h1]
    rw [h123, h125]
    by_cases h2 : s.count (Char.ofNat 125) < s.count (Char.ofNat 123)
    · rw [if_pos h2, List.append_assoc]
    · rw [if_neg h2]
      have : s.count (Char.ofNat 123) - s.count (Char.ofNat 125) = 0 := by omega
      rw [this, List.replicate_zero, List.append_nil]
  · rw [if_neg h1]
    have : s.count (Char.ofNat 91) - s.count (Char.ofNat 93) = 0 := by omega
    rw [this, List.replicate_zero, List.append_nil]
    by_cases h2 : s.count (Char.ofNat 125) < s.count (Char.ofNat 123)
    · rw [if_pos h2]
    · rw [if_neg h2]
      have : s.count (Char.ofNat 123) - s.count (Char.ofNat 125) = 0 := by omega
      rw [this, List.replicate_zero, List.append_nil]

theorem removeTrailingComma_spec (s : List Char) :
    removeTrailingComma s = s ∨
      ∃ pre suf, s = pre ++ Char.ofNat 44 :: suf ∧ removeTrailingComma s = pre ++ suf := by
  rcases hq : rfindIdx s (Char.ofNat 34) with _ | q
  · left
    simp only [removeTrailingComma, hq]
  · simp only [removeTrailingComma, hq]
    by_cases hlt : skipWsFrom s (q + 1) < s.length
    · rw [dif_pos hlt]
      by_cases hc : s.get ⟨skipWsFrom s (q + 1), hlt⟩ = Char.ofNat 44
      · rw [if_pos hc]
        right
        refine ⟨s.take (skipWsFrom s (q + 1)), s.drop (skipWsFrom s (q + 1) + 1), ?_, rfl⟩
        conv_lhs => rw [← List.take_append_drop (skipWsFrom s (q + 1)) s]
        have hgc : s[skipWsFrom s (q + 1)] = Char.ofNat 44 := hc
        rw [List.drop_eq_getElem_cons hlt, hgc]
      · rw [if_neg hc]
        left; rfl
    · rw [dif_neg hlt]
      left; rfl

/-- C2 (amended): `generate_and_cache` persists the accumulated stream
content after the in-place trailing-comma removal of lines 119–129 — the
cached text is the fragment concatenation with at most one comma (the one
after the final quotation mark) removed — and the remaining repair steps are
not applied to it; the function's return value equals the cached text. -/
theorem cached_is_comma_stripped_raw (events : List StreamEvent) :
    (generate_and_cache_model events).returned = (generate_and_cache_model events).cached ∧
      ((generate_and_cache_model events).cached = collect events ∨
        ∃ pre suf, collect events = pre ++ Char.ofNat 44 :: suf ∧
          (generate_and_cache_model events).cached = pre ++ suf) :=
  ⟨rfl, removeTrailingComma_spec (collect events)⟩

/-- C2 (counterexample): for the streamed fragment `{"names": ["A",` the
persisted cache text is not the concatenation of the received content
fragments — the trailing comma has been removed before the write. -/
theorem cached_differs_from_raw_stream :
    (generate_and_cache_model [StreamEvent.chunk "\x7b\"names\": [\"A\","]).cached ≠
      collect [StreamEvent.chunk "\x7b\"names\": [\"A\","] ∧
    (generate_and_cache_model [StreamEvent.chunk "\x7b\"names\": [\"A\","]).cached =
      "\x7b\"names\": [\"A\"".data := by
  constructor
  · decide
  · decide

/-- C1 (code evaluation): for the raw streamed buffer `{"names": ["A", "B",`,
the buffer `generate_and_cache` returns — the one `generate_localized_entries`
then parses — is `{"names": ["A", "B"` and fails to parse, while the `fixed`
buffer the function computes (and drops) is the repaired `{"names": ["A", "B"]}`,
which parses to the name list `["A", "B"]`. -/
theorem parse_target_is_unrepaired_buffer :
    (generate_and_cache_model [StreamEvent.chunk "\x7b\"names\": [\"A\", \"B\","]).returned =
        "\x7b\"names\": [\"A\", \"B\"".data ∧
    parseNames (generate_and_cache_model
        [StreamEvent.chunk "\x7b\"names\": [\"A\", \"B\","]).returned = none ∧
    (generate_and_cache_model [StreamEvent.chunk "\x7b\"names\": [\"A\", \"B\","]).repaired =
        "\x7b\"names\": [\"A\", \"B\"]\x7d".data ∧
    parseNames (generate_and_cache_model
        [StreamEvent.chunk "\x7b\"names\": [\"A\", \"B\","]).repaired = some ["A", "B"] := by
  refine ⟨by decide, by decide, by decide, by decide⟩

/-- C3 (counterexample): with a cache document whose content is the non-empty
text `x` (which does not parse as the list-of-strings document), processing
the leaf performs a service invocation — the retry loop of lines 212–217
calls `generate_and_cache` even though a non-empty cache document exists. -/
theorem cache_hit_can_still_invoke_service :
    trimChars ("x".data) ≠ [] ∧
      (generate_localized_entries_model "" (some ("x".data))
          [some [StreamEvent.chunk "\x7b\"names\": []\x7d"]]).2 = 1 := by
  refine ⟨by decide, by decide⟩

/-- C3 (amended): an existing cache document that is non-empty after trimming
and whose content parses as the list-of-strings document short-circuits
generation: the call returns the normalized entries with zero service
invocations. (If the cached content fails to parse, the retry loop does
invoke the service.) -/
theorem cache_hit_parse_success_no_service_call (pfx : String) (s : List Char)
    (svc : List (Option (List StreamEvent))) (ns : List String)
    (h1 : trimChars s ≠ []) (h2 : parseNames s = some ns) :
    generate_localized_entries_model pfx (some s) svc
      = (.ok (normalizeEntries pfx ns), 0) := by
  simp only [generate_localized_entries_model, if_pos h1, h2]

/-- Witness for the amended C3 at a concrete parsable cache document. -/
theorem cache_hit_parse_success_no_service_call_witness :
    generate_localized_entries_model "" (some ("\x7b\"names\": [\"A\"]\x7d".data)) []
      = (.ok [("A", "A")], 0) := by
  have h := cache_hit_parse_success_no_service_call "" ("\x7b\"names\": [\"A\"]\x7d".data) [] ["A"]
    (by decide) (by decide)
  rw [h]
  decide

theorem lookupLoc_append (m m' : List (String × String)) (k : String) :
    lookupLoc (m ++ m') k =
      match lookupLoc m k with
      | some v => some v
      | none => lookupLoc m' k := by
  induction m with
  | nil => rfl
  | cons p rest ih =>
    obtain ⟨a, b⟩ := p
    by_cases h : a = k
    · simp [lookupLoc, h]
    · simp only [List.cons_append, lookupLoc, if_neg h]
      exact ih

theorem lookupLoc_insertOnce (m : List (String × String)) (a b k : String) :
    lookupLoc (insertOnce m a b) k =
      match lookupLoc m k with
      | some v => some v
      | none => if a = k then some b else none := by
  unfold insertOnce
  by_cases h : (lookupLoc m a).isSome
  · rw [if_pos h]
    cases hk : lookupLoc m k with
    | some v => rfl
    | none =>
      by_cases hak : a = k
      · subst hak
        rw [hk] at h
        simp at h
      · simp [hak]
  · rw [if_neg h, lookupLoc_append]
    cases hk : lookupLoc m k with
    | some v => rfl
    | none => simp [lookupLoc]

theorem lookupLoc_insertEntries (entries : List (String × String))
    (m : List (String × String)) (k : String) :
    lookupLoc (insertEntries m entries) k =
      match lookupLoc m k with
      | some v => some v
      | none => (entries.find? (fun e => decide (e.1 = k))).map Prod.snd := by
  induction entries generalizing m with
  | nil => cases h : lookupLoc m k <;> simp [insertEntries, h]
  | cons e rest ih =>
    have hstep : insertEntries m (e :: rest) = insertEntries (insertOnce m e.1 e.2) rest := rfl
    rw [hstep, ih, lookupLoc_insertOnce]
    cases h : lookupLoc m k with
    | some v => rfl
    | none =>
      by_cases he : e.1 = k
      · simp [List.find?, he]
      · simp [List.find?, he]

/-- C8: the key→display-name table is insert-once with first-write-wins:
folding any sequence of generated entries through the `entry(...).or_insert`
step leaves, at every key, the display name of the earliest entry carrying
that key; and an insertion at an already-present key does not change its
value. -/
theorem localisation_table_first_write_wins :
    (∀ (entries : List (String × String)) (k : String),
        lookupLoc (insertEntries [] entries) k =
          (entries.find? (fun e => decide (e.1 = k))).map Prod.snd) ∧
    (∀ m k v, lookupLoc (insertOnce m k v) k = some ((lookupLoc m k).getD v)) := by
  constructor
  · intro entries k
    rw [lookupLoc_insertEntries]
    rfl
  · intro m k v
    rw [lookupLoc_insertOnce]
    cases h : lookupLoc m k with
    | some w => rfl
    | none => simp

/-- C10: comment classification checks for `=` before the `prefix:` form:
any comment line whose text after the marker contains `=` only appends a
literal key-value insertion, leaving the pending prefix and pending theme
untouched — even when the comment begins with `prefix:`. -/
theorem comment_with_equals_is_kv_insert
    (gen : List String → String → String → List (String × String))
    (st : ParseState) (line : String) (k v : String)
    (hc : startsWithStr (trimStr line) "#" = true)
    (hs : splitOnceChar (trimStr (dropStr (trimStr line) 1)) (Char.ofNat 61) = some (k, v)) :
    processLine gen st line =
      { st with pending_kvs := st.pending_kvs ++ [trimStr k ++ " = " ++ trimStr v] } := by
  simp only [processLine, hc, hs, if_true]

/-- Witness for C10 at the spec's example line `# prefix: HUM = X`. -/
theorem comment_with_equals_is_kv_insert_witness :
    processLine (fun _ _ _ => []) initState "# prefix: HUM = X" =
      { initState with pending_kvs := ["prefix: HUM = X"] } := by
  have h := comment_with_equals_is_kv_insert (fun _ _ _ => []) initState "# prefix: HUM = X"
    "prefix: HUM " " X" (by decide) (by decide)
  rw [h]
  decide

/-- The Entry Normalizer as §4.4 of the spec words it: per raw name trim,
drop if empty; final key is the trailing-underscore-stripped prefix, an
underscore, and the sanitized name when a stripped prefix remains, else the
sanitized name alone; order preserved, no deduplication. -/
def normalizeEntriesSpec (pfx : String) (names : List String) : List (String × String) :=
  names.filterMap (fun nm =>
    let name := trimStr nm
    if name = "" then none
    else some
      ((if trimEndUnderscores pfx = "" then sanitize_key name
        else trimEndUnderscores pfx ++ "_" ++ sanitize_key name), name))

theorem normalizeEntries_foldl_aux (pfx : String) (names : List String)
    (acc : List (String × String)) :
    (names.foldl
      (fun entries nm =>
        let name := trimStr nm
        if name = "" then entries
        else
          let nm_san := sanitize_key name
          let key := if trimEndUnderscores pfx = "" then nm_san
            else trimEndUnderscores pfx ++ "_" ++ nm_san
          entries ++ [(key, name)])
      acc) = acc ++ normalizeEntriesSpec pfx names := by
  induction names generalizing acc with
  | nil => simp [normalizeEntriesSpec]
  | cons nm rest ih =>
    simp only [List.foldl_cons, normalizeEntriesSpec, List.filterMap_cons]
    by_cases h : trimStr nm = ""
    · simp only [h, if_pos rfl, ih]
      rfl
    · simp only [if_neg h, ih, List.append_assoc]
      rfl

/-- C6: the normalizer trims each raw name, drops names that trim to empty,
and keys each kept name with the trailing-underscore-stripped prefix joined
by `_` to the sanitized name (the sanitized name alone when no prefix
remains), preserving order with no deduplication; a scope under
`# prefix: HUM` with name `Ana` yields the key `HUM_ANA`. -/
theorem normalizer_key_construction :
    (∀ pfx names, normalizeEntries pfx names = normalizeEntriesSpec pfx names) ∧
    normalizeEntries "HUM" ["Ana"] = [("HUM_ANA", "Ana")] ∧
    (mainLoop (fun _ _ p => normalizeEntries p ["Ana"])
        ["# prefix: HUM", "# humans", "h = \x7b", "\x7d"]).localisations = [("HUM_ANA", "Ana")] := by
  refine ⟨?_, by decide, by decide⟩
  intro pfx names
  unfold normalizeEntries
  have h := normalizeEntries_foldl_aux pfx names []
  simpa using h

/-- C4 (counterexample): in the document `# elves / a = { / foo / }` the
scope `a` holds the literal content line `foo` and a theme, yet the generator
is still invoked for it at the closing brace — a content line without `=` or
`,` does not set `has_data` and so does not suppress generation. -/
theorem literal_line_without_separator_does_not_suppress :
    (mainLoop (fun _ _ _ => [("K", "V")]) ["# elves", "a = \x7b", "foo", "\x7d"]).gens
      = [(["a"], "elves", "")] := by
  decide

/-- C4 (amended): at a closing-brace line the generator is invoked for the
popped scope iff `child_count = 0 ∧ has_data = false ∧ theme` is set; a
literal content line sets the enclosing scope's `has_data` exactly when it
contains `=` or `,` (only such lines suppress generation); and a closed
child always sets the parent's `has_data` and increments its `child_count`
(so any closed child scope suppresses generation). -/
theorem leaf_generation_iff :
    (∀ gen st line ctx rest, st.stack = ctx :: rest → trimStr line = "\x7d" →
        (processLine gen st line).gens =
          if ctx.child_count = 0 ∧ ctx.has_data = false ∧ ctx.theme.isSome then
            st.gens ++ [(ctx.path, ctx.theme.getD "", ctx.pfx.getD "")]
          else st.gens) ∧
    (∀ gen st line ctx rest, st.stack = ctx :: rest →
        startsWithStr (trimStr line) "#" = false →
        endsWithStr (trimStr line) "\x7b" = false →
        trimStr line ≠ "\x7d" →
        (processLine gen st line).stack =
          { ctx with has_data :=
              ctx.has_data ||
                (containsChar (trimStr line) (Char.ofNat 61) ||
                  containsChar (trimStr line) (Char.ofNat 44)) } :: rest) ∧
    (∀ gen st line ctx parent rest, st.stack = ctx :: parent :: rest →
        trimStr line = "\x7d" →
        (processLine gen st line).stack =
          { parent with child_count := parent.child_count + 1, has_data := true } :: rest) := by
  have e1 : startsWithStr "\x7d" "#" = false := by decide
  have e2 : endsWithStr "\x7d" "\x7b" = false := by decide
  refine ⟨?_, ?_, ?_⟩
  · intro gen st line ctx rest hstack hline
    cases rest with
    | nil =>
      simp only [processLine, hline, hstack, e1, e2, Bool.false_eq_true, if_false, if_true]
      by_cases hcond : ctx.child_count = 0 ∧ ctx.has_data = false ∧ ctx.theme.isSome
      · rw [if_pos hcond, if_pos hcond]
      · rw [if_neg hcond, if_neg hcond]
    | cons parent rs =>
      simp only [processLine, hline, hstack, e1, e2, Bool.false_eq_true, if_false, if_true]
      by_cases hcond : ctx.child_count = 0 ∧ ctx.has_data = false ∧ ctx.theme.isSome
      · rw [if_pos hcond, if_pos hcond]
      · rw [if_neg hcond, if_neg hcond]
  · intro gen st line ctx rest hstack h1 h2 h3
    simp only [processLine, h1, h2, if_neg h3, Bool.false_eq_true, if_false, hstack]
    by_cases hc : (containsChar (trimStr line) (Char.ofNat 61) ||
        containsChar (trimStr line) (Char.ofNat 44)) = true
    · simp only [hc, if_true]
      rw [Bool.or_eq_true] at hc
      rcases hc with hc | hc <;> simp [hc]
    · simp only [hc, Bool.false_eq_true, if_false]
      rw [Bool.not_eq_true] at hc
      rw [Bool.or_eq_false_iff] at hc
      simp [hc.1, hc.2]
  · intro gen st line ctx parent rest hstack hline
    simp only [processLine, hline, hstack, e1, e2, Bool.false_eq_true, if_false, if_true]

/-- Witness for the amended C4 at concrete stack states and lines. -/
theorem leaf_generation_iff_witness :
    (processLine (fun _ _ _ => [("K", "V")])
        { initState with stack :=
            [{ key := "a", indent := 0, theme := some "elves", kv_inserts := [],
               pfx := none, has_data := false, child_count := 0, path := ["a"] }] }
        "\x7d").gens = [(["a"], "elves", "")] ∧
    (processLine (fun _ _ _ => [])
        { initState with stack :=
            [{ key := "a", indent := 0, theme := some "elves", kv_inserts := [],
               pfx := none, has_data := false, child_count := 0, path := ["a"] }] }
        "x = y").stack.head?.map ContextEntry.has_data = some true ∧
    (processLine (fun _ _ _ => [])
        { initState with stack :=
            [{ key := "b", indent := 4, theme := none, kv_inserts := [],
               pfx := none, has_data := false, child_count := 0, path := ["a", "b"] },
             { key := "a", indent := 0, theme := some "elves", kv_inserts := [],
               pfx := none, has_data := false, child_count := 0, path := ["a"] }] }
        "\x7d").stack.head?.map ContextEntry.has_data = some true := by
  refine ⟨?_, ?_, ?_⟩
  · rw [leaf_generation_iff.1 (fun _ _ _ => [("K", "V")]) _ "\x7d" _ _ rfl (by decide)]
    decide
  · rw [leaf_generation_iff.2.1 (fun _ _ _ => []) _ "x = y" _ _ rfl (by decide) (by decide)
      (by decide)]
    decide
  · rw [leaf_generation_iff.2.2 (fun _ _ _ => []) _ "\x7d" _ _ _ rfl (by decide)]
    decide

theorem retryNames_ok (svc : List (Option (List StreamEvent))) (ns : List String)
    (h : (retryNames svc).1 = .ok ns) :
    ∃ ev, some ev ∈ svc ∧ parseNames (generate_and_cache_model ev).returned = some ns := by
  induction svc with
  | nil => simp [retryNames] at h
  | cons o rest ih =>
    cases o with
    | none => simp [retryNames] at h
    | some ev =>
      cases hp : parseNames (generate_and_cache_model ev).returned with
      | some ms =>
        simp only [retryNames, hp] at h
        cases h
        exact ⟨ev, by simp, hp⟩
      | none =>
        simp only [retryNames, hp] at h
        obtain ⟨ev', hmem, hps⟩ := ih h
        exact ⟨ev', by simp [hmem], hps⟩

theorem retryNames_err (svc : List (Option (List StreamEvent)))
    (h : (retryNames svc).1 = .transportErr) : none ∈ svc := by
  induction svc with
  | nil => simp [retryNames] at h
  | cons o rest ih =>
    cases o with
    | none => simp
    | some ev =>
      cases hp : parseNames (generate_and_cache_model ev).returned with
      | some ms => simp [retryNames, hp] at h
      | none =>
        simp only [retryNames, hp] at h
        exact List.mem_cons_of_mem _ (ih h)

theorem retryNames_allfail (svc : List (Option (List StreamEvent)))
    (h : ∀ o ∈ svc, ∃ ev, o = some ev ∧
        parseNames (generate_and_cache_model ev).returned = none) :
    retryNames svc = (.pending, svc.length) := by
  induction svc with
  | nil => rfl
  | cons o rest ih =>
    obtain ⟨ev, rfl, hp⟩ := h o (by simp)
    have hrest := ih (fun o ho => h o (List.mem_cons_of_mem _ ho))
    simp [retryNames, hp, hrest]

theorem finishGen_fst_ok (pfx : String) (r : RetryOut × Nat) (es : List (String × String))
    (h : (finishGen pfx r).1 = .ok es) :
    ∃ ns, r.1 = .ok ns ∧ es = normalizeEntries pfx ns := by
  obtain ⟨ro, n⟩ := r
  cases ro with
  | ok ns =>
    cases h
    exact ⟨ns, rfl, rfl⟩
  | transportErr => simp [finishGen] at h
  | pending => simp [finishGen] at h

theorem finishGen_fst_err (pfx : String) (r : RetryOut × Nat)
    (h : (finishGen pfx r).1 = .transportErr) : r.1 = .transportErr := by
  obtain ⟨ro, n⟩ := r
  cases ro with
  | ok ns => simp [finishGen] at h
  | transportErr => rfl
  | pending => simp [finishGen] at h

/-- The name list a `generate_localized_entries` call would obtain from the
cache document alone: `some` exactly when a non-empty cache document parses. -/
def cacheYields (cache : Option (List Char)) : Option (List String) :=
  match cache with
  | some s => if trimChars s ≠ [] then parseNames s else none
  | none => none

/-- C5: a parse failure of a generated buffer is never returned as an error.
The call succeeds only when some actually produced buffer (non-empty cache
document or returned service buffer) parses as the list-of-strings document
and the result is its normalization; an error outcome arises only from a
transport error (`none` among the modelled invocations); and when the cache
yields nothing and every modelled invocation returns an unparsable buffer,
the call consumes every invocation — however many there are — and is still
retrying, having returned neither success nor error (no attempt cap). -/
theorem parse_failure_never_error :
    (∀ pfx cache svc es n,
        generate_localized_entries_model pfx cache svc = (.ok es, n) →
        ∃ raw ns, raw ∈ parseCandidates cache svc ∧ parseNames raw = some ns ∧
          es = normalizeEntries pfx ns) ∧
    (∀ pfx cache svc n,
        generate_localized_entries_model pfx cache svc = (.transportErr, n) →
        none ∈ svc) ∧
    (∀ pfx cache svc,
        cacheYields cache = none →
        (∀ o ∈ svc, ∃ ev, o = some ev ∧
            parseNames (generate_and_cache_model ev).returned = none) →
        generate_localized_entries_model pfx cache svc = (.pending, svc.length)) := by
  refine ⟨?_, ?_, ?_⟩
  · intro pfx cache svc es n h
    have hretry : ∀ (hr : (finishGen pfx (retryNames svc)).1 = GenOutcome.ok es),
        ∃ raw ns, raw ∈ svc.filterMap
            (fun o => o.map (fun ev => (generate_and_cache_model ev).returned)) ∧
          parseNames raw = some ns ∧ es = normalizeEntries pfx ns := by
      intro hr
      obtain ⟨ns, hok, hes⟩ := finishGen_fst_ok pfx _ es hr
      obtain ⟨ev, hmem, hps⟩ := retryNames_ok svc ns hok
      exact ⟨(generate_and_cache_model ev).returned, ns,
        List.mem_filterMap.mpr ⟨some ev, hmem, rfl⟩, hps, hes⟩
    cases cache with
    | none =>
      simp only [generate_localized_entries_model] at h
      obtain ⟨raw, ns, hmem, hps, hes⟩ := hretry (by rw [h])
      exact ⟨raw, ns, by simpa [parseCandidates] using hmem, hps, hes⟩
    | some s =>
      by_cases ht : trimChars s ≠ []
      · cases hp : parseNames s with
        | some ns =>
          simp only [generate_localized_entries_model, if_pos ht, hp] at h
          cases h
          exact ⟨s, ns, by simp [parseCandidates, ht], hp, rfl⟩
        | none =>
          simp only [generate_localized_entries_model, if_pos ht, hp] at h
          obtain ⟨raw, ns, hmem, hps, hes⟩ := hretry (by rw [h])
          refine ⟨raw, ns, ?_, hps, hes⟩
          simp only [parseCandidates, if_pos ht]
          exact List.mem_append_right _ hmem
      · simp only [generate_localized_entries_model, if_neg ht] at h
        obtain ⟨raw, ns, hmem, hps, hes⟩ := hretry (by rw [h])
        refine ⟨raw, ns, ?_, hps, hes⟩
        simp only [parseCandidates, if_neg ht]
        exact List.mem_append_right _ hmem
  · intro pfx cache svc n h
    have hretry : ∀ (hr : (finishGen pfx (retryNames svc)).1 = GenOutcome.transportErr),
        none ∈ svc := fun hr => retryNames_err svc (finishGen_fst_err pfx _ hr)
    cases cache with
    | none =>
      simp only [generate_localized_entries_model] at h
      exact hretry (by rw [h])
    | some s =>
      by_cases ht : trimChars s ≠ []
      · cases hp : parseNames s with
        | some ns =>
          simp only [generate_localized_entries_model, if_pos ht, hp] at h
          cases h
        | none =>
          simp only [generate_localized_entries_model, if_pos ht, hp] at h
          exact hretry (by rw [h])
      · simp only [generate_localized_entries_model, if_neg ht] at h
        exact hretry (by rw [h])
  · intro pfx cache svc hcache hall
    have hr : retryNames svc = (.pending, svc.length) := retryNames_allfail svc hall
    cases cache with
    | none =>
      simp only [generate_localized_entries_model, hr]
      rfl
    | some s =>
      by_cases ht : trimChars s ≠ []
      · cases hp : parseNames s with
        | some ns =>
          exfalso
          simp only [cacheYields, if_pos ht, hp] at hcache
          exact Option.noConfusion hcache
        | none =>
          simp only [generate_localized_entries_model, if_pos ht, hp, hr]
          rfl
      · simp only [generate_localized_entries_model, if_neg ht, hr]
        rfl

/-- Witness for C5 at concrete cache contents and service responses. -/
theorem parse_failure_never_error_witness :
    generate_localized_entries_model "" none [some [StreamEvent.chunk "bad"]]
      = (.pending, 1) ∧
    (∃ raw ns, raw ∈ parseCandidates (some ("\x7b\"names\": []\x7d".data)) [] ∧
        parseNames raw = some ns ∧ ([] : List (String × String)) = normalizeEntries "" ns) := by
  constructor
  · have h3 := parse_failure_never_error.2.2 "" none [some [StreamEvent.chunk "bad"]]
      (by decide)
      (by
        intro o ho
        simp only [List.mem_singleton] at ho
        subst ho
        exact ⟨_, rfl, by decide⟩)
    simpa using h3
  · exact parse_failure_never_error.1 "" (some ("\x7b\"names\": []\x7d".data)) [] [] 0 (by decide)

end StellarisNameGen
